import Mathlib

set_option linter.unusedSectionVars false

/-!
Shallow embedding of `llama_index/embeddings/huggingface.py`:
the `HuggingFaceEmbedding` adapter (tokenize, pool, optionally normalize)
and the `HuggingFaceInferenceAPIEmbeddings` adapter (per-text
feature-extraction requests with optional client-side pooling).
Tensors are modelled as nested lists over a linear ordered field;
third-party calls (tokenizer, model, HTTP client) are abstract parameters.
-/

/-- A Python exception value, abstracted to its class and message.
`otherError` carries the class name and the message. -/
inductive PyErr where
  | typeError : String → PyErr
  | valueError : String → PyErr
  | otherError : String → String → PyErr
deriving DecidableEq, Repr

/-- The model output tuple of the transformers model: `model_output[0]`
is the token-embeddings tensor of shape batch × sequence × dimension. -/
structure ModelOutput (α : Type) where
  tokenEmbeddings : List (List (List α))
deriving DecidableEq, Repr

variable {α : Type} [LinearOrderedField α]

/-- Elementwise sum of two vectors, the inner step of `torch.sum(·, 1)`. -/
def addVec (xs ys : List α) : List α :=
  List.zipWith (fun a b => a + b) xs ys

/-- Model of `torch.sum(m, 1)` for one batch element: sum the rows of `m`
(each of length `dim`) into a single vector of length `dim`. -/
def sumRows (dim : Nat) (rows : List (List α)) : List α :=
  rows.foldl addVec (List.replicate dim 0)

/-- The divisor used by mean pooling:
`torch.clamp(input_mask_expanded.sum(1), min=1e-9)` for one batch element,
where the mask was expanded to `dim` copies per position. -/
def mean_pool_divisor (dim : Nat) (mask : List α) : List α :=
  (sumRows dim (mask.map (fun m => List.replicate dim m))).map
    (fun d => max d (1 / 1000000000))

/-- The body of `HuggingFaceEmbedding._mean_pooling` for one batch element:
`torch.sum(token_embeddings * input_mask_expanded, 1) /
 torch.clamp(input_mask_expanded.sum(1), min=1e-9)`. -/
def mean_pool_single (dim : Nat) (emb : List (List α)) (mask : List α) : List α :=
  let input_mask_expanded := mask.map (fun m => List.replicate dim m)
  List.zipWith (fun s d => s / d)
    (sumRows dim (List.zipWith (List.zipWith (fun a b => a * b)) emb input_mask_expanded))
    (mean_pool_divisor dim mask)

/-- Embedding of `HuggingFaceEmbedding._mean_pooling`: attention-mask-weighted mean of the
token embeddings, batched over the first tensor axis.  `dim` is
`token_embeddings.size(-1)`, read off the first row as torch reads the
(uniform) tensor shape. -/
def _mean_pooling (model_output : ModelOutput α) (attention_mask : List (List α)) :
    List (List α) :=
  let token_embeddings := model_output.tokenEmbeddings
  let dim := ((token_embeddings.headD []).headD []).length
  List.zipWith (fun emb mask => mean_pool_single dim emb mask)
    token_embeddings attention_mask

/-- Embedding of `HuggingFaceEmbedding._cls_pooling`: `model_output[0][:, 0]`, the
embedding at token position 0 of each batch element. -/
def _cls_pooling (model_output : ModelOutput α) : List (List α) :=
  model_output.tokenEmbeddings.map (fun seq => seq.headD [])

/-- The pydantic fields of `HuggingFaceEmbedding` that the embedding
methods read. -/
structure HuggingFaceEmbeddingFields where
  model_name : String
  tokenizer_name : String
  max_length : Nat
  pooling : String
  normalize : Bool
  query_instruction : Option String
  text_instruction : Option String
deriving DecidableEq, Repr

/-- Embedding of `HuggingFaceEmbedding._format_query_text`: prepend `self.text_instruction`,
falling back to `get_query_instruct_for_model_name(self.model_name)`
(passed abstractly, the helper lives outside this file's sources) when it is
`None`, then strip surrounding whitespace. -/
def _format_query_text (get_query_instruct_for_model_name : String → String)
    (self : HuggingFaceEmbeddingFields) (query_text : String) : String :=
  let instruction := match self.text_instruction with
    | some i => i
    | none => get_query_instruct_for_model_name self.model_name
  (instruction ++ (" " ++ query_text)).trim

/-- Embedding of `HuggingFaceEmbedding._format_text`: prepend `self.text_instruction`,
falling back to `get_text_instruct_for_model_name(self.model_name)`
(passed abstractly) when it is `None`, then strip surrounding whitespace. -/
def _format_text (get_text_instruct_for_model_name : String → String)
    (self : HuggingFaceEmbeddingFields) (text : String) : String :=
  let instruction := match self.text_instruction with
    | some i => i
    | none => get_text_instruct_for_model_name self.model_name
  (instruction ++ (" " ++ text)).trim

/-- The squared-entry sum under the L2 norm. -/
def sum_sq (v : List α) : α := (v.map (fun x => x * x)).sum

/-- The L2 norm of a vector, `‖v‖₂ = sqrt (Σ vᵢ²)`. -/
noncomputable def l2_norm (v : List ℝ) : ℝ := Real.sqrt (sum_sq v)

/-- Modelled from the torch documentation of
`torch.nn.functional.normalize(v, p=2, dim=1)` applied to one row:
`v / max(‖v‖₂, eps)` with the default `eps = 1e-12`. -/
noncomputable def F_normalize (v : List ℝ) : List ℝ :=
  v.map (fun x => x / max (l2_norm v) (1 / 1000000000000))

/-- Embedding of `HuggingFaceEmbedding._embed`: tokenize the sentences and run the model
(both third-party, abstracted into `tok_model`, which returns the model
output and the attention mask), pool with CLS or mean pooling according to
`self.pooling`, and L2-normalize each row when `self.normalize` is set.
`.tolist()` is the identity in this list model. -/
noncomputable def _embed (tok_model : List String → ModelOutput ℝ × List (List ℝ))
    (self : HuggingFaceEmbeddingFields) (sentences : List String) : List (List ℝ) :=
  let encoded := tok_model sentences
  let model_output := encoded.1
  let attention_mask := encoded.2
  let embeddings :=
    if self.pooling = "cls" then _cls_pooling model_output
    else _mean_pooling model_output attention_mask
  if self.normalize then embeddings.map F_normalize else embeddings

/-- Embedding of `HuggingFaceEmbedding._get_text_embeddings`: format every text with
`_format_text`, then embed the batch. -/
noncomputable def _get_text_embeddings
    (tok_model : List String → ModelOutput ℝ × List (List ℝ))
    (get_text_instruct_for_model_name : String → String)
    (self : HuggingFaceEmbeddingFields) (texts : List String) : List (List ℝ) :=
  _embed tok_model self
    (texts.map (fun text => _format_text get_text_instruct_for_model_name self text))

/-- The squeezed response of one feature-extraction request,
`(await self._async_client.feature_extraction(text)).squeeze(axis=0)`,
abstracted to its dimensionality: a one-dimensional vector (the model pooled
server-side) or a higher-dimensional tensor, modelled by its matrix of token
vectors, that still needs client-side pooling. -/
inductive FeatResult (α : Type) where
  | oneD : List α → FeatResult α
  | multiD : List (List α) → FeatResult α
deriving DecidableEq, Repr

/-- The message of the `ValueError` raised by `aembed_query` when pooling
fails with a `TypeError`. -/
def pooling_required_msg (model_name : String) : String :=
  "Pooling is required for " ++ model_name ++
    (" because it returned a > 1-D value, please specify pooling as not None.")

/-- Embedding of `HuggingFaceInferenceAPIEmbeddings.aembed_query`: run one
feature-extraction request (abstract, already squeezed along axis 0); return
the result directly when it is one-dimensional; otherwise call
`self.pooling` on it, where calling `None` raises a `TypeError`, and any
`TypeError` from that call is re-raised as a `ValueError`. -/
def aembed_query (pooling : Option (List (List α) → Except PyErr (List α)))
    (feature_extraction : String → Except PyErr (FeatResult α))
    (model_name : String) (text : String) : Except PyErr (List α) :=
  match feature_extraction text with
  | Except.error e => Except.error e
  | Except.ok (FeatResult.oneD v) => Except.ok v
  | Except.ok (FeatResult.multiD m) =>
    let call := match pooling with
      | none => Except.error (PyErr.typeError ("NoneType object is not callable"))
      | some p => p m
    match call with
    | Except.ok r => Except.ok r
    | Except.error (PyErr.typeError _) =>
      Except.error (PyErr.valueError (pooling_required_msg model_name))
    | Except.error e => Except.error e

/-- Version of `aembed_query` instrumented with the list of feature-extraction requests
it issues: the body calls `feature_extraction` exactly once, on `text`. -/
def aembed_query_instr (pooling : Option (List (List α) → Except PyErr (List α)))
    (feature_extraction : String → Except PyErr (FeatResult α))
    (model_name : String) (text : String) : List String × Except PyErr (List α) :=
  ([text], aembed_query pooling feature_extraction model_name text)

/-- Model of `[task.result() for task in tasks]`: collect the task results in order;
the first stored exception, in list order, is re-raised. -/
def task_results (tasks : List (Except PyErr (List α))) :
    Except PyErr (List (List α)) :=
  match tasks with
  | [] => Except.ok []
  | t :: ts =>
    match t with
    | Except.error e => Except.error e
    | Except.ok v =>
      match task_results ts with
      | Except.error e => Except.error e
      | Except.ok vs => Except.ok (v :: vs)

/-- The `ValueError` raised by `asyncio.wait` on an empty set of tasks
(modelled from the Python standard-library documentation of `asyncio.wait`). -/
def empty_wait_error : PyErr :=
  PyErr.valueError ("Set of coroutines/Futures is empty.")

/-- Embedding of `HuggingFaceInferenceAPIEmbeddings.embed_documents`: create one
`aembed_query` task per text, run them all under `asyncio.wait` (which
raises `ValueError` when the task set is empty), then collect the results
in task order. -/
def embed_documents (pooling : Option (List (List α) → Except PyErr (List α)))
    (feature_extraction : String → Except PyErr (FeatResult α))
    (model_name : String) (texts : List String) : Except PyErr (List (List α)) :=
  let tasks := texts.map (fun text =>
    aembed_query pooling feature_extraction model_name text)
  if texts.isEmpty then Except.error empty_wait_error
  else task_results tasks

/-- Embedding of `HuggingFaceInferenceAPIEmbeddings.aembed_documents`: identical task
fan-out on the caller's event loop; `asyncio.wait` again raises on an empty
task set. -/
def aembed_documents (pooling : Option (List (List α) → Except PyErr (List α)))
    (feature_extraction : String → Except PyErr (FeatResult α))
    (model_name : String) (texts : List String) : Except PyErr (List (List α)) :=
  let tasks := texts.map (fun text =>
    aembed_query pooling feature_extraction model_name text)
  if texts.isEmpty then Except.error empty_wait_error
  else task_results tasks

/-- Version of `embed_documents` instrumented with the concatenated request logs of its
per-text tasks. -/
def embed_documents_instr (pooling : Option (List (List α) → Except PyErr (List α)))
    (feature_extraction : String → Except PyErr (FeatResult α))
    (model_name : String) (texts : List String) :
    List String × Except PyErr (List (List α)) :=
  let tasks := texts.map (fun text =>
    aembed_query_instr pooling feature_extraction model_name text)
  ((tasks.map Prod.fst).flatten,
    if texts.isEmpty then Except.error empty_wait_error
    else task_results (tasks.map Prod.snd))

/-- Version of `aembed_documents` instrumented with the concatenated request logs of
its per-text tasks. -/
def aembed_documents_instr (pooling : Option (List (List α) → Except PyErr (List α)))
    (feature_extraction : String → Except PyErr (FeatResult α))
    (model_name : String) (texts : List String) :
    List String × Except PyErr (List (List α)) :=
  let tasks := texts.map (fun text =>
    aembed_query_instr pooling feature_extraction model_name text)
  ((tasks.map Prod.fst).flatten,
    if texts.isEmpty then Except.error empty_wait_error
    else task_results (tasks.map Prod.snd))

/-- Modelled from the spec: the `Pooling.CLS` callable of
`llama_index.embeddings.pooling`, which is imported by the source but is not
among the given source files.  The spec glossary reads: "take the embedding
vector of the first token position as the representation of the whole
sequence". -/
def Pooling.cls (m : List (List α)) : List α := m.headD []

/-- The attention-mask-weighted column sum the spec describes for mean
pooling: at column `j`, the sum over positions `t` of
`emb[t][j] * mask[t]`.  Stated from the spec's words for comparison with
`mean_pool_single`. -/
def weighted_sum_at (emb : List (List α)) (mask : List α) (j : Nat) : α :=
  (List.zipWith (fun row m => row.getD j 0 * m) emb mask).sum

/-- The per-text embedding pipeline of `_embed`, restated for one batch row:
pool one sequence of token embeddings (first token for CLS, masked mean
otherwise) and optionally L2-normalize it.  Used to state that the i-th
output of a batch call depends only on the i-th row of the model output. -/
noncomputable def embed_single (pooling : String) (normalize : Bool)
    (dim : Nat) (emb : List (List ℝ)) (mask : List ℝ) : List ℝ :=
  let pooled := if pooling = "cls" then emb.headD []
    else mean_pool_single dim emb mask
  if normalize then F_normalize pooled else pooled

theorem getD_zipWith_of_lt {α' β' γ' : Type} (f : α' → β' → γ') (as : List α')
    (bs : List β') (j : Nat) (da : α') (db : β') (dc : γ')
    (ha : j < as.length) (hb : j < bs.length) :
    (List.zipWith f as bs).getD j dc = f (as.getD j da) (bs.getD j db) := by
  have hl : j < (List.zipWith f as bs).length := by
    rw [List.length_zipWith]
    exact lt_min ha hb
  rw [List.getD_eq_getElem _ _ hl, List.getD_eq_getElem _ _ ha,
    List.getD_eq_getElem _ _ hb]
  exact List.getElem_zipWith

theorem getD_replicate_of_lt (a : α) (dim j : Nat) (d : α) (hj : j < dim) :
    (List.replicate dim a).getD j d = a := by
  have hl : j < (List.replicate dim a).length := by
    rwa [List.length_replicate]
  rw [List.getD_eq_getElem _ _ hl]
  exact List.getElem_replicate a hl

theorem list_eq_of_getD {β : Type} (d : β) (l₁ l₂ : List β)
    (h : l₁.length = l₂.length)
    (he : ∀ j, j < l₁.length → l₁.getD j d = l₂.getD j d) : l₁ = l₂ := by
  apply List.ext_getElem h
  intro i h1 h2
  have hi := he i h1
  rwa [List.getD_eq_getElem _ _ h1, List.getD_eq_getElem _ _ h2] at hi

theorem getD_map_of_lt {α' β' : Type} (f : α' → β') (l : List α') (i : Nat)
    (da : α') (db : β') (h : i < l.length) :
    (l.map f).getD i db = f (l.getD i da) := by
  rw [List.getD_eq_getElem _ _ (by rwa [List.length_map]), List.getElem_map,
    List.getD_eq_getElem _ _ h]

theorem addVec_length (xs ys : List α) :
    (addVec xs ys).length = min xs.length ys.length :=
  List.length_zipWith _ _ _

theorem addVec_getD (a b : List α) (j : Nat) (ha : j < a.length)
    (hb : j < b.length) :
    (addVec a b).getD j 0 = a.getD j 0 + b.getD j 0 :=
  getD_zipWith_of_lt _ a b j 0 0 0 ha hb

theorem foldl_addVec_length (rows : List (List α)) (acc : List α) (dim : Nat)
    (hacc : acc.length = dim) (h : ∀ r ∈ rows, r.length = dim) :
    (rows.foldl addVec acc).length = dim := by
  induction rows generalizing acc with
  | nil => exact hacc
  | cons r rs ih =>
    simp only [List.foldl_cons]
    apply ih
    · rw [addVec_length, hacc, h r (List.mem_cons_self r rs)]
      exact Nat.min_self dim
    · intro r' hr'
      exact h r' (List.mem_cons_of_mem _ hr')

theorem foldl_addVec_getD (rows : List (List α)) (acc : List α) (dim j : Nat)
    (hacc : acc.length = dim) (h : ∀ r ∈ rows, r.length = dim) (hj : j < dim) :
    (rows.foldl addVec acc).getD j 0 =
      acc.getD j 0 + (rows.map (fun r => r.getD j 0)).sum := by
  induction rows generalizing acc with
  | nil => simp
  | cons r rs ih =>
    have hr : r.length = dim := h r (List.mem_cons_self r rs)
    have hlen : (addVec acc r).length = dim := by
      rw [addVec_length, hacc, hr]
      exact Nat.min_self dim
    simp only [List.foldl_cons, List.map_cons, List.sum_cons]
    rw [ih (addVec acc r) hlen (fun r' hr' => h r' (List.mem_cons_of_mem _ hr')),
      addVec_getD acc r j (hacc ▸ hj) (hr ▸ hj), add_assoc]

theorem sumRows_length (dim : Nat) (rows : List (List α))
    (h : ∀ r ∈ rows, r.length = dim) : (sumRows dim rows).length = dim :=
  foldl_addVec_length rows _ dim (List.length_replicate dim 0) h

theorem sumRows_getD (dim : Nat) (rows : List (List α)) (j : Nat)
    (h : ∀ r ∈ rows, r.length = dim) (hj : j < dim) :
    (sumRows dim rows).getD j 0 = (rows.map (fun r => r.getD j 0)).sum := by
  rw [sumRows, foldl_addVec_getD rows _ dim j (List.length_replicate dim 0) h hj,
    getD_replicate_of_lt 0 dim j 0 hj, zero_add]

theorem replicate_rows_length (dim : Nat) (mask : List α) :
    ∀ r ∈ mask.map (fun m => List.replicate dim m), r.length = dim := by
  intro r hr
  obtain ⟨m, _, rfl⟩ := List.mem_map.mp hr
  exact List.length_replicate dim m

theorem mean_pool_divisor_length (dim : Nat) (mask : List α) :
    (mean_pool_divisor dim mask).length = dim := by
  rw [mean_pool_divisor, List.length_map]
  exact sumRows_length dim _ (replicate_rows_length dim mask)

theorem mean_pool_divisor_getD (dim : Nat) (mask : List α) (j : Nat)
    (hj : j < dim) :
    (mean_pool_divisor dim mask).getD j 0 = max mask.sum (1 / 1000000000) := by
  have hlen : (sumRows dim (mask.map (fun m => List.replicate dim m))).length = dim :=
    sumRows_length dim _ (replicate_rows_length dim mask)
  have hjl : j < (sumRows dim (mask.map (fun m => List.replicate dim m))).length := by
    rw [hlen]
    exact hj
  rw [mean_pool_divisor, List.getD_eq_getElem _ _ (by simpa using hjl),
    List.getElem_map, ← List.getD_eq_getElem _ 0 hjl,
    sumRows_getD dim _ j (replicate_rows_length dim mask) hj, List.map_map]
  have hmap : mask.map ((fun r => r.getD j 0) ∘ (fun m => List.replicate dim m)) =
      mask.map (fun m => m) := by
    apply List.map_congr_left
    intro m _
    exact getD_replicate_of_lt m dim j 0 hj
  rw [hmap, List.map_id']

theorem numerator_rows_length (dim : Nat) (emb : List (List α)) (mask : List α)
    (hemb : ∀ r ∈ emb, r.length = dim) :
    ∀ r ∈ List.zipWith (List.zipWith (fun a b => a * b)) emb
        (mask.map (fun m => List.replicate dim m)), r.length = dim := by
  intro r hr
  obtain ⟨i, hi, rfl⟩ := List.mem_iff_getElem.mp hr
  rw [List.getElem_zipWith, List.length_zipWith]
  have h1 : i < emb.length := by
    rw [List.length_zipWith] at hi
    exact lt_of_lt_of_le hi (Nat.min_le_left _ _)
  have h2 : i < (mask.map (fun m => List.replicate dim m)).length := by
    rw [List.length_zipWith] at hi
    exact lt_of_lt_of_le hi (Nat.min_le_right _ _)
  rw [hemb emb[i] (emb.getElem_mem h1)]
  have : (mask.map (fun m => List.replicate dim m))[i].length = dim := by
    apply replicate_rows_length dim mask
    exact (mask.map (fun m => List.replicate dim m)).getElem_mem h2
  rw [this]
  exact Nat.min_self dim

theorem numerator_sum (dim : Nat) (emb : List (List α)) (mask : List α) (j : Nat)
    (hemb : ∀ r ∈ emb, r.length = dim) (hj : j < dim) :
    ((List.zipWith (List.zipWith (fun a b => a * b)) emb
        (mask.map (fun m => List.replicate dim m))).map (fun r => r.getD j 0)).sum =
      weighted_sum_at emb mask j := by
  induction emb generalizing mask with
  | nil => simp [weighted_sum_at]
  | cons e es ih =>
    cases mask with
    | nil => simp [weighted_sum_at]
    | cons m ms =>
      have he : e.length = dim := hemb e (List.mem_cons_self e es)
      have hhead : (List.zipWith (fun a b => a * b) e (List.replicate dim m)).getD j 0 =
          e.getD j 0 * m := by
        rw [getD_zipWith_of_lt (fun a b => a * b) e (List.replicate dim m) j 0 0 0
          (he ▸ hj) (by rwa [List.length_replicate]),
          getD_replicate_of_lt m dim j 0 hj]
      simp only [List.map_cons, List.zipWith_cons_cons, List.sum_cons, weighted_sum_at]
      rw [hhead, ih ms (fun r hr => hemb r (List.mem_cons_of_mem _ hr))]
      rfl

theorem mean_pool_single_length (dim : Nat) (emb : List (List α)) (mask : List α)
    (hemb : ∀ r ∈ emb, r.length = dim) :
    (mean_pool_single dim emb mask).length = dim := by
  rw [mean_pool_single, List.length_zipWith,
    sumRows_length dim _ (numerator_rows_length dim emb mask hemb),
    mean_pool_divisor_length dim mask]
  exact Nat.min_self dim

theorem mean_pool_single_getD (dim : Nat) (emb : List (List α)) (mask : List α)
    (j : Nat) (hemb : ∀ r ∈ emb, r.length = dim) (hj : j < dim) :
    (mean_pool_single dim emb mask).getD j 0 =
      weighted_sum_at emb mask j / max mask.sum (1 / 1000000000) := by
  rw [mean_pool_single]
  rw [getD_zipWith_of_lt (fun s d => s / d) _ _ j 0 0 0
    (by rw [sumRows_length dim _ (numerator_rows_length dim emb mask hemb)]; exact hj)
    (by rw [mean_pool_divisor_length dim mask]; exact hj),
    sumRows_getD dim _ j (numerator_rows_length dim emb mask hemb) hj,
    numerator_sum dim emb mask j hemb hj, mean_pool_divisor_getD dim mask j hj]

theorem weighted_sum_at_congr (emb emb' : List (List α)) (mask : List α) (j : Nat)
    (hlen : emb'.length = emb.length)
    (hagree : ∀ t, t < emb.length → mask.getD t 0 ≠ 0 →
      emb'.getD t [] = emb.getD t []) :
    weighted_sum_at emb' mask j = weighted_sum_at emb mask j := by
  induction emb generalizing emb' mask with
  | nil =>
    rw [List.length_nil, List.length_eq_zero] at hlen
    rw [hlen]
  | cons e es ih =>
    cases emb' with
    | nil => simp at hlen
    | cons e' es' =>
      cases mask with
      | nil => rfl
      | cons m ms =>
        simp only [weighted_sum_at, List.zipWith_cons_cons, List.sum_cons]
        have htail : weighted_sum_at es' ms j = weighted_sum_at es ms j := by
          apply ih es' ms (by simpa using hlen)
          intro t ht hm
          have := hagree (t + 1) (by simpa using Nat.succ_lt_succ ht) (by simpa using hm)
          simpa using this
        rw [show (List.zipWith (fun row m => row.getD j 0 * m) es' ms).sum =
            weighted_sum_at es' ms j from rfl,
          show (List.zipWith (fun row m => row.getD j 0 * m) es ms).sum =
            weighted_sum_at es ms j from rfl, htail]
        by_cases hm : m = 0
        · rw [hm, mul_zero, mul_zero]
        · have := hagree 0 (Nat.succ_pos _) (by simpa using hm)
          simp only [List.getD_cons_zero] at this
          rw [this]

theorem mean_pool_single_congr (dim : Nat) (emb emb' : List (List α))
    (mask : List α) (hemb : ∀ r ∈ emb, r.length = dim)
    (hemb' : ∀ r ∈ emb', r.length = dim) (hlen : emb'.length = emb.length)
    (hagree : ∀ t, t < emb.length → mask.getD t 0 ≠ 0 →
      emb'.getD t [] = emb.getD t []) :
    mean_pool_single dim emb' mask = mean_pool_single dim emb mask := by
  apply list_eq_of_getD 0
  · rw [mean_pool_single_length dim emb' mask hemb',
      mean_pool_single_length dim emb mask hemb]
  · intro j hj
    rw [mean_pool_single_length dim emb' mask hemb'] at hj
    rw [mean_pool_single_getD dim emb' mask j hemb' hj,
      mean_pool_single_getD dim emb mask j hemb hj,
      weighted_sum_at_congr emb emb' mask j hlen hagree]

theorem task_results_ok (tasks : List (Except PyErr (List α)))
    (h : ∀ t ∈ tasks, ∃ v, t = Except.ok v) :
    ∃ res, task_results tasks = Except.ok res ∧ res.length = tasks.length ∧
      ∀ i, i < tasks.length →
        tasks.getD i (Except.ok []) = Except.ok (res.getD i []) := by
  induction tasks with
  | nil => exact ⟨[], rfl, rfl, fun i hi => absurd hi (by simp)⟩
  | cons t ts ih =>
    obtain ⟨v, rfl⟩ := h t (List.mem_cons_self t ts)
    obtain ⟨res, hres, hlen, hidx⟩ := ih (fun u hu => h u (List.mem_cons_of_mem _ hu))
    refine ⟨v :: res, ?_, ?_, ?_⟩
    · simp [task_results, hres]
    · simp [hlen]
    · intro i hi
      cases i with
      | zero => simp
      | succ n =>
        simpa using hidx n (by simpa using hi)

theorem flatten_singletons (texts : List String) :
    (texts.map (fun t => [t])).flatten = texts := by
  induction texts with
  | nil => rfl
  | cons t ts ih => simp [ih]

theorem sum_sq_nonneg (v : List α) : 0 ≤ sum_sq v := by
  induction v with
  | nil => simp [sum_sq]
  | cons x xs ih =>
    simp only [sum_sq, List.map_cons, List.sum_cons] at ih ⊢
    exact add_nonneg (mul_self_nonneg x) ih

theorem sum_sq_map_div (v : List α) (n : α) :
    sum_sq (v.map (fun x => x / n)) = sum_sq v / (n * n) := by
  induction v with
  | nil => simp [sum_sq]
  | cons x xs ih =>
    simp only [sum_sq, List.map_cons, List.sum_cons] at ih ⊢
    rw [ih, add_div, div_mul_div_comm]

theorem l2_norm_nonneg (v : List ℝ) : 0 ≤ l2_norm v :=
  Real.sqrt_nonneg _

theorem l2_norm_map_div (v : List ℝ) (n : ℝ) (hn : 0 < n) :
    l2_norm (v.map (fun x => x / n)) = l2_norm v / n := by
  rw [l2_norm, sum_sq_map_div, Real.sqrt_div (sum_sq_nonneg v),
    Real.sqrt_mul_self hn.le]
  rfl

theorem F_normalize_spec (v : List ℝ) (h : (1 / 1000000000000 : ℝ) ≤ l2_norm v) :
    F_normalize v = v.map (fun x => x / l2_norm v) ∧
      l2_norm (F_normalize v) = 1 := by
  have hpos : 0 < l2_norm v := lt_of_lt_of_le (by norm_num) h
  have hmax : max (l2_norm v) (1 / 1000000000000) = l2_norm v := max_eq_left h
  have heq : F_normalize v = v.map (fun x => x / l2_norm v) := by
    rw [F_normalize, hmax]
  refine ⟨heq, ?_⟩
  rw [heq, l2_norm_map_div v _ hpos, div_self hpos.ne']

theorem sqrt_twentyfive : Real.sqrt 25 = 5 := by
  rw [show (25 : ℝ) = 5 ^ 2 by norm_num]
  exact Real.sqrt_sq (by norm_num)

theorem l2_norm_three_four : l2_norm [(3 : ℝ), 4] = 5 := by
  have hs : sum_sq [(3 : ℝ), 4] = 25 := by
    norm_num [sum_sq]
  rw [l2_norm, hs, sqrt_twentyfive]

/-- C9: `_format_query_text` prepends the `text_instruction` field, falls
back to the model-specific query instruction only when `text_instruction` is
`None`, and never consults the `query_instruction` field: two field records
agreeing on `text_instruction` and `model_name` format every query
identically, whatever their `query_instruction`. -/
theorem format_query_uses_text_instruction (g : String → String)
    (self : HuggingFaceEmbeddingFields) (q : String) :
    (∀ i, self.text_instruction = some i →
      _format_query_text g self q = (i ++ (" " ++ q)).trim) ∧
    (self.text_instruction = none →
      _format_query_text g self q = (g self.model_name ++ (" " ++ q)).trim) ∧
    (∀ other : HuggingFaceEmbeddingFields,
      other.text_instruction = self.text_instruction →
      other.model_name = self.model_name →
      _format_query_text g other q = _format_query_text g self q) := by
  refine ⟨?_, ?_, ?_⟩
  · intro i hi
    simp only [_format_query_text, hi]
  · intro hn
    simp only [_format_query_text, hn]
  · intro other ht hm
    simp only [_format_query_text, ht, hm]

/-- C9 witness: with `text_instruction` set, the query is prefixed by it, and
changing only `query_instruction` leaves the formatted query unchanged. -/
theorem format_query_uses_text_instruction_witness :
    _format_query_text (fun _ => ("QI")) ⟨("m"), ("t"), 5, ("cls"), true,
        some ("ignored"), some ("inst")⟩ ("hello") =
      (("inst") ++ ((" ") ++ ("hello"))).trim ∧
    _format_query_text (fun _ => ("QI")) ⟨("m"), ("t"), 5, ("cls"), true,
        none, some ("inst")⟩ ("hello") =
      _format_query_text (fun _ => ("QI")) ⟨("m"), ("t"), 5, ("cls"), true,
        some ("ignored"), some ("inst")⟩ ("hello") :=
  ⟨(format_query_uses_text_instruction (fun _ => ("QI"))
      ⟨("m"), ("t"), 5, ("cls"), true, some ("ignored"), some ("inst")⟩
      ("hello")).1 ("inst") rfl,
    (format_query_uses_text_instruction (fun _ => ("QI"))
      ⟨("m"), ("t"), 5, ("cls"), true, some ("ignored"), some ("inst")⟩
      ("hello")).2.2 ⟨("m"), ("t"), 5, ("cls"), true, none, some ("inst")⟩
      rfl rfl⟩

/-- C10: the divisor used by mean pooling is the expanded-mask sum clamped
below at 1e-9: every entry is at least 1e-9 and strictly positive for every
attention mask, including the all-zero mask, so `mean_pool_single` never
divides by zero. -/
theorem mean_pool_divisor_never_zero (dim : Nat) (mask : List α) :
    (∀ d ∈ mean_pool_divisor dim mask, (1 / 1000000000 : α) ≤ d ∧ 0 < d) ∧
    (∀ j, j < dim →
      (mean_pool_divisor dim mask).getD j 0 =
        max mask.sum (1 / 1000000000)) := by
  constructor
  · intro d hd
    rw [mean_pool_divisor] at hd
    obtain ⟨x, _, rfl⟩ := List.mem_map.mp hd
    have h1 : (1 / 1000000000 : α) ≤ max x (1 / 1000000000) := le_max_right _ _
    exact ⟨h1, lt_of_lt_of_le (by norm_num) h1⟩
  · intro j hj
    exact mean_pool_divisor_getD dim mask j hj

/-- C10 witness: on the all-zero mask `[0, 0]` the single divisor entry is
the clamp value 1e-9, which is positive. -/
theorem mean_pool_divisor_never_zero_witness :
    ((1 / 1000000000 : ℚ) ∈ mean_pool_divisor 1 [0, 0]) ∧
    ((1 / 1000000000 : ℚ) ≤ (1 / 1000000000 : ℚ) ∧ (0 : ℚ) < 1 / 1000000000) ∧
    (mean_pool_divisor 1 [(0 : ℚ), 0]).getD 0 0 =
      max ([(0 : ℚ), 0].sum) (1 / 1000000000) :=
  ⟨by simp [mean_pool_divisor, sumRows, addVec],
    (mean_pool_divisor_never_zero 1 [0, 0]).1 _
      (by simp [mean_pool_divisor, sumRows, addVec]),
    (mean_pool_divisor_never_zero 1 [(0 : ℚ), 0]).2 0 (by decide)⟩

/-- C8: on the empty input list, `embed_documents` and `aembed_documents`
raise the `ValueError` of `asyncio.wait` on an empty task set instead of
returning the empty list. -/
theorem embed_documents_empty_raises
    (pooling : Option (List (List α) → Except PyErr (List α)))
    (feat : String → Except PyErr (FeatResult α)) (mn : String) :
    embed_documents pooling feat mn [] = Except.error empty_wait_error ∧
    aembed_documents pooling feat mn [] = Except.error empty_wait_error :=
  ⟨rfl, rfl⟩

/-- C5: `aembed_query` returns the squeezed feature-extraction result
directly, for every pooling configuration (pooling is not applied), whenever
the result is one-dimensional, and applies the configured pooling whenever
it has more than one dimension. -/
theorem aembed_query_dispatch
    (pooling : Option (List (List α) → Except PyErr (List α)))
    (feat : String → Except PyErr (FeatResult α)) (mn text : String) :
    (∀ v, feat text = Except.ok (FeatResult.oneD v) →
      aembed_query pooling feat mn text = Except.ok v) ∧
    (∀ m p r, feat text = Except.ok (FeatResult.multiD m) →
      pooling = some p → p m = Except.ok r →
      aembed_query pooling feat mn text = Except.ok r) := by
  constructor
  · intro v hv
    simp [aembed_query, hv]
  · intro m p r hm hp hr
    simp [aembed_query, hm, hp, hr]

/-- C5 witness: a one-dimensional response is returned as is even with no
pooling configured, and a two-dimensional response goes through the
configured pooling. -/
theorem aembed_query_dispatch_witness :
    aembed_query (α := ℚ) none (fun _ => Except.ok (FeatResult.oneD [1, 2]))
        ("m") ("t") = Except.ok [1, 2] ∧
    aembed_query (α := ℚ) (some (fun x => Except.ok (Pooling.cls x)))
        (fun _ => Except.ok (FeatResult.multiD [[3], [4]])) ("m") ("t") =
      Except.ok [3] :=
  ⟨(aembed_query_dispatch (α := ℚ) none
      (fun _ => Except.ok (FeatResult.oneD [1, 2])) ("m") ("t")).1 [1, 2] rfl,
    (aembed_query_dispatch (α := ℚ) (some (fun x => Except.ok (Pooling.cls x)))
      (fun _ => Except.ok (FeatResult.multiD [[3], [4]])) ("m") ("t")).2
      [[3], [4]] _ [3] rfl rfl rfl⟩

/-- C7 counterexample: a `TypeError` raised by the underlying pooling call
is not re-raised unchanged by `aembed_query`: it is translated into a
`ValueError`. -/
theorem pooling_type_error_translated :
    aembed_query (α := ℚ)
        (some (fun _ => Except.error (PyErr.typeError ("boom"))))
        (fun _ => Except.ok (FeatResult.multiD [[1]])) ("model") ("text") =
      Except.error (PyErr.valueError (pooling_required_msg ("model"))) ∧
    aembed_query (α := ℚ)
        (some (fun _ => Except.error (PyErr.typeError ("boom"))))
        (fun _ => Except.ok (FeatResult.multiD [[1]])) ("model") ("text") ≠
      Except.error (PyErr.typeError ("boom")) :=
  ⟨rfl, fun h => by simpa using Except.error.inj h⟩

/-- C7 amended: errors from the feature-extraction call, and non-`TypeError`
errors from the pooling call, are re-raised unchanged; a `TypeError` raised
while applying pooling, including the `TypeError` from calling a `None`
pooling on a multi-dimensional result, is translated into a `ValueError`. -/
theorem error_propagation_amended
    (pooling : Option (List (List α) → Except PyErr (List α)))
    (feat : String → Except PyErr (FeatResult α)) (mn text : String) :
    (∀ e, feat text = Except.error e →
      aembed_query pooling feat mn text = Except.error e) ∧
    (∀ m p e, feat text = Except.ok (FeatResult.multiD m) → pooling = some p →
      p m = Except.error e → (∀ s, e ≠ PyErr.typeError s) →
      aembed_query pooling feat mn text = Except.error e) ∧
    (∀ m p s, feat text = Except.ok (FeatResult.multiD m) → pooling = some p →
      p m = Except.error (PyErr.typeError s) →
      aembed_query pooling feat mn text =
        Except.error (PyErr.valueError (pooling_required_msg mn))) ∧
    (∀ m, feat text = Except.ok (FeatResult.multiD m) → pooling = none →
      aembed_query pooling feat mn text =
        Except.error (PyErr.valueError (pooling_required_msg mn))) := by
  refine ⟨?_, ?_, ?_, ?_⟩
  · intro e he
    simp [aembed_query, he]
  · intro m p e hm hp he hne
    cases e with
    | typeError s => exact absurd rfl (hne s)
    | valueError s => simp [aembed_query, hm, hp, he]
    | otherError c s => simp [aembed_query, hm, hp, he]
  · intro m p s hm hp he
    simp [aembed_query, hm, hp, he]
  · intro m hm hp
    simp [aembed_query, hm, hp]

/-- C7 amended witness: a feature-extraction error and a non-`TypeError`
pooling error propagate unchanged; a pooling `TypeError` becomes a
`ValueError`, and so does the `TypeError` from calling a `None` pooling on
a multi-dimensional result. -/
theorem error_propagation_amended_witness :
    aembed_query (α := ℚ) none
        (fun _ => Except.error (PyErr.otherError ("HTTPError") ("503")))
        ("m") ("t") = Except.error (PyErr.otherError ("HTTPError") ("503")) ∧
    aembed_query (α := ℚ)
        (some (fun _ => Except.error (PyErr.valueError ("bad shape"))))
        (fun _ => Except.ok (FeatResult.multiD [[1]])) ("m") ("t") =
      Except.error (PyErr.valueError ("bad shape")) ∧
    aembed_query (α := ℚ)
        (some (fun _ => Except.error (PyErr.typeError ("oops"))))
        (fun _ => Except.ok (FeatResult.multiD [[1]])) ("m") ("t") =
      Except.error (PyErr.valueError (pooling_required_msg ("m"))) ∧
    aembed_query (α := ℚ) none
        (fun _ => Except.ok (FeatResult.multiD [[1]])) ("m") ("t") =
      Except.error (PyErr.valueError (pooling_required_msg ("m"))) :=
  ⟨(error_propagation_amended (α := ℚ) none
      (fun _ => Except.error (PyErr.otherError ("HTTPError") ("503")))
      ("m") ("t")).1 _ rfl,
    (error_propagation_amended (α := ℚ)
      (some (fun _ => Except.error (PyErr.valueError ("bad shape"))))
      (fun _ => Except.ok (FeatResult.multiD [[1]])) ("m") ("t")).2.1
      [[1]] _ _ rfl rfl rfl (fun _ h => PyErr.noConfusion h),
    (error_propagation_amended (α := ℚ)
      (some (fun _ => Except.error (PyErr.typeError ("oops"))))
      (fun _ => Except.ok (FeatResult.multiD [[1]])) ("m") ("t")).2.2.1
      [[1]] _ ("oops") rfl rfl rfl,
    (error_propagation_amended (α := ℚ) none
      (fun _ => Except.ok (FeatResult.multiD [[1]])) ("m") ("t")).2.2.2
      [[1]] rfl rfl⟩

/-- C3: CLS pooling returns exactly the embedding vector at the first token
position of each sequence of the model output, and `Pooling.CLS` applied by
`aembed_query` to a non-empty matrix returns its first row. -/
theorem cls_pooling_first_token (mo : ModelOutput α)
    (feat : String → Except PyErr (FeatResult α)) (mn text : String)
    (r : List α) (rs : List (List α))
    (hfeat : feat text = Except.ok (FeatResult.multiD (r :: rs))) :
    (_cls_pooling mo).length = mo.tokenEmbeddings.length ∧
    (∀ b x xs, b < mo.tokenEmbeddings.length →
      mo.tokenEmbeddings.getD b [] = x :: xs →
      (_cls_pooling mo).getD b [] = x) ∧
    aembed_query (some (fun m => Except.ok (Pooling.cls m))) feat mn text =
      Except.ok r := by
  refine ⟨List.length_map _ _, ?_, ?_⟩
  · intro b x xs hb hrow
    rw [_cls_pooling, getD_map_of_lt (fun seq => seq.headD []) _ b [] [] hb, hrow,
      List.headD_cons]
  · simp [aembed_query, hfeat, Pooling.cls]

/-- C3 witness: on a model output of one sequence of two token vectors, CLS
pooling picks the first one, and `Pooling.CLS` in `aembed_query` picks the
first row of the raw matrix. -/
theorem cls_pooling_first_token_witness :
    (_cls_pooling (ModelOutput.mk [[[(1 : ℚ)], [2]]])).getD 0 [] = [(1 : ℚ)] ∧
    aembed_query (some (fun m => Except.ok (Pooling.cls m)))
        (fun _ => Except.ok (FeatResult.multiD [[(5 : ℚ)], [6]])) ("m") ("t") =
      Except.ok [(5 : ℚ)] :=
  ⟨(cls_pooling_first_token (ModelOutput.mk [[[(1 : ℚ)], [2]]])
      (fun _ => Except.ok (FeatResult.multiD [[(5 : ℚ)], [6]])) ("m") ("t")
      [5] [[6]] rfl).2.1 0 [1] [[2]] (by decide) rfl,
    (cls_pooling_first_token (ModelOutput.mk [[[(1 : ℚ)], [2]]])
      (fun _ => Except.ok (FeatResult.multiD [[(5 : ℚ)], [6]])) ("m") ("t")
      [5] [[6]] rfl).2.2⟩

/-- C6: the batch operations issue exactly one feature-extraction request
per input text, in input order (the instrumented request log equals the
input list), the instrumented results agree with the plain operations, and
each per-text task is `aembed_query` with the one configured pooling. -/
theorem one_request_per_text
    (pooling : Option (List (List α) → Except PyErr (List α)))
    (feat : String → Except PyErr (FeatResult α)) (mn : String)
    (texts : List String) :
    (embed_documents_instr pooling feat mn texts).1 = texts ∧
    (aembed_documents_instr pooling feat mn texts).1 = texts ∧
    (embed_documents_instr pooling feat mn texts).2 =
      embed_documents pooling feat mn texts ∧
    (aembed_documents_instr pooling feat mn texts).2 =
      aembed_documents pooling feat mn texts ∧
    (texts ≠ [] → embed_documents pooling feat mn texts =
      task_results (texts.map (fun t => aembed_query pooling feat mn t)) ∧
      aembed_documents pooling feat mn texts =
      task_results (texts.map (fun t => aembed_query pooling feat mn t))) := by
  refine ⟨?_, ?_, ?_, ?_, ?_⟩
  · simp only [embed_documents_instr, aembed_query_instr, List.map_map,
      Function.comp_def]
    exact flatten_singletons texts
  · simp only [aembed_documents_instr, aembed_query_instr, List.map_map,
      Function.comp_def]
    exact flatten_singletons texts
  · simp only [embed_documents_instr, embed_documents, aembed_query_instr,
      List.map_map, Function.comp_def]
  · simp only [aembed_documents_instr, aembed_documents, aembed_query_instr,
      List.map_map, Function.comp_def]
  · intro hne
    have hie : texts.isEmpty = false := by
      rwa [List.isEmpty_eq_false]
    constructor
    · simp only [embed_documents, hie, Bool.false_eq_true, if_false]
    · simp only [aembed_documents, hie, Bool.false_eq_true, if_false]

/-- C2: `_mean_pooling` returns, per batch element, the vector whose j-th
entry is the attention-mask-weighted sum of the token embeddings at column
j divided by the clamped mask sum, and positions whose mask value is 0
contribute nothing: changing the token embeddings only at zero-mask
positions leaves the result unchanged. -/
theorem mean_pooling_weighted_average (mo : ModelOutput α)
    (attention_mask : List (List α)) (dim : Nat)
    (hdim : dim = ((mo.tokenEmbeddings.headD []).headD []).length)
    (hB : mo.tokenEmbeddings.length = attention_mask.length)
    (hrows : ∀ seq ∈ mo.tokenEmbeddings, ∀ r ∈ seq, r.length = dim) :
    (_mean_pooling mo attention_mask).length = mo.tokenEmbeddings.length ∧
    (∀ b, b < mo.tokenEmbeddings.length →
      (_mean_pooling mo attention_mask).getD b [] =
        mean_pool_single dim (mo.tokenEmbeddings.getD b [])
          (attention_mask.getD b []) ∧
      ∀ j, j < dim →
        ((_mean_pooling mo attention_mask).getD b []).getD j 0 =
          weighted_sum_at (mo.tokenEmbeddings.getD b [])
              (attention_mask.getD b []) j /
            max ((attention_mask.getD b []).sum) (1 / 1000000000)) ∧
    (∀ mo' : ModelOutput α,
      mo'.tokenEmbeddings.length = mo.tokenEmbeddings.length →
      (∀ seq ∈ mo'.tokenEmbeddings, ∀ r ∈ seq, r.length = dim) →
      dim = ((mo'.tokenEmbeddings.headD []).headD []).length →
      (∀ b, b < mo.tokenEmbeddings.length →
        (mo'.tokenEmbeddings.getD b []).length =
          (mo.tokenEmbeddings.getD b []).length) →
      (∀ b t, b < mo.tokenEmbeddings.length →
        t < (mo.tokenEmbeddings.getD b []).length →
        (attention_mask.getD b []).getD t 0 ≠ 0 →
        (mo'.tokenEmbeddings.getD b []).getD t [] =
          (mo.tokenEmbeddings.getD b []).getD t []) →
      _mean_pooling mo' attention_mask = _mean_pooling mo attention_mask) := by
  have hdef : _mean_pooling mo attention_mask =
      List.zipWith (fun emb mask => mean_pool_single dim emb mask)
        mo.tokenEmbeddings attention_mask := by
    simp only [_mean_pooling]
    rw [← hdim]
  refine ⟨?_, ?_, ?_⟩
  · rw [hdef, List.length_zipWith, ← hB, Nat.min_self]
  · intro b hb
    have hb' : b < attention_mask.length := hB ▸ hb
    have hrow : (_mean_pooling mo attention_mask).getD b [] =
        mean_pool_single dim (mo.tokenEmbeddings.getD b [])
          (attention_mask.getD b []) := by
      rw [hdef, getD_zipWith_of_lt (fun emb mask => mean_pool_single dim emb mask)
        _ _ b [] [] [] hb hb']
    refine ⟨hrow, ?_⟩
    intro j hj
    have hmem : mo.tokenEmbeddings.getD b [] ∈ mo.tokenEmbeddings := by
      rw [List.getD_eq_getElem _ _ hb]
      exact List.getElem_mem hb
    rw [hrow, mean_pool_single_getD dim _ _ j (hrows _ hmem) hj]
  · intro mo' hlen' hrows' hdim' hrowlen hagree
    have hdef' : _mean_pooling mo' attention_mask =
        List.zipWith (fun emb mask => mean_pool_single dim emb mask)
          mo'.tokenEmbeddings attention_mask := by
      simp only [_mean_pooling]
      rw [← hdim']
    apply list_eq_of_getD ([] : List α)
    · rw [hdef, hdef', List.length_zipWith, List.length_zipWith, hlen']
    · intro b hb0
      have hbz : b < mo'.tokenEmbeddings.length := by
        rw [hdef', List.length_zipWith] at hb0
        exact lt_of_lt_of_le hb0 (Nat.min_le_left _ _)
      have hb : b < mo.tokenEmbeddings.length := hlen' ▸ hbz
      have hb' : b < attention_mask.length := hB ▸ hb
      rw [hdef, hdef',
        getD_zipWith_of_lt (fun emb mask => mean_pool_single dim emb mask)
          _ _ b [] [] [] hbz hb',
        getD_zipWith_of_lt (fun emb mask => mean_pool_single dim emb mask)
          _ _ b [] [] [] hb hb']
      have hmem : mo.tokenEmbeddings.getD b [] ∈ mo.tokenEmbeddings := by
        rw [List.getD_eq_getElem _ _ hb]
        exact List.getElem_mem hb
      have hmem' : mo'.tokenEmbeddings.getD b [] ∈ mo'.tokenEmbeddings := by
        rw [List.getD_eq_getElem _ _ hbz]
        exact List.getElem_mem hbz
      exact mean_pool_single_congr dim _ _ _ (hrows _ hmem) (hrows' _ hmem')
        (hrowlen b hb) (fun t ht hm => hagree b t hb ht hm)

/-- C2 witness: one batch element of two token vectors with mask `[1, 0]`:
the first entry of the pooled vector is the weighted sum over the tokens
divided by the clamped mask sum. -/
theorem mean_pooling_weighted_average_witness :
    ((_mean_pooling (ModelOutput.mk [[[(1 : ℚ), 2], [3, 4]]])
        [[1, 0]]).getD 0 []).getD 0 0 =
      weighted_sum_at [[(1 : ℚ), 2], [3, 4]] [1, 0] 0 /
        max ([(1 : ℚ), 0].sum) (1 / 1000000000) :=
  ((mean_pooling_weighted_average (ModelOutput.mk [[[(1 : ℚ), 2], [3, 4]]])
      [[1, 0]] 2 rfl rfl (by decide)).2.1 0 (by decide)).2 0 (by decide)

/-- C4: `_embed` applies L2 normalization to the pooled vectors exactly when
the `normalize` flag is set: with `normalize` false the pooled batch is
returned unchanged, and with `normalize` true every returned row whose
pooled vector clears torch's normalization guard 1e-12 is the pooled vector
divided by its L2 norm, and has unit length. -/
theorem embed_normalize_iff_flag
    (tok_model : List String → ModelOutput ℝ × List (List ℝ))
    (self : HuggingFaceEmbeddingFields) (sentences : List String)
    (E : List (List ℝ))
    (hE : E = if self.pooling = "cls" then _cls_pooling (tok_model sentences).1
      else _mean_pooling (tok_model sentences).1 (tok_model sentences).2) :
    (self.normalize = false → _embed tok_model self sentences = E) ∧
    (self.normalize = true → ∀ i, i < E.length →
      (_embed tok_model self sentences).getD i [] = F_normalize (E.getD i []) ∧
      ((1 / 1000000000000 : ℝ) ≤ l2_norm (E.getD i []) →
        (_embed tok_model self sentences).getD i [] =
          (E.getD i []).map (fun x => x / l2_norm (E.getD i [])) ∧
        l2_norm ((_embed tok_model self sentences).getD i []) = 1)) := by
  have hdef : _embed tok_model self sentences =
      if self.normalize then E.map F_normalize else E := by
    rw [hE]
    simp only [_embed]
  constructor
  · intro hn
    rw [hdef, hn]
    simp
  · intro hn i hi
    have h1 : (_embed tok_model self sentences).getD i [] =
        F_normalize (E.getD i []) := by
      rw [hdef, hn]
      simp only [if_true]
      exact getD_map_of_lt F_normalize E i [] [] hi
    refine ⟨h1, ?_⟩
    intro hnorm
    obtain ⟨heq, hunit⟩ := F_normalize_spec (E.getD i []) hnorm
    exact ⟨h1.trans heq, by rw [h1, hunit]⟩

/-- C4 witness: one sentence whose pooled CLS vector is `[3, 4]` (norm 5):
the embedded row is `[3/5, 4/5]` and has unit L2 norm. -/
theorem embed_normalize_iff_flag_witness :
    l2_norm ((_embed (fun _ => (ModelOutput.mk [[[3, 4]]], [[1]]))
        ⟨("m"), ("t"), 5, ("cls"), true, none, none⟩ [("x")]).getD 0 []) = 1 ∧
    (_embed (fun _ => (ModelOutput.mk [[[3, 4]]], [[1]]))
        ⟨("m"), ("t"), 5, ("cls"), true, none, none⟩ [("x")]).getD 0 [] =
      [(3 : ℝ) / 5, 4 / 5] := by
  have h := (embed_normalize_iff_flag
    (fun _ => (ModelOutput.mk [[[3, 4]]], [[1]]))
    ⟨("m"), ("t"), 5, ("cls"), true, none, none⟩ [("x")] [[(3 : ℝ), 4]]
    (by simp [_cls_pooling])).2 rfl 0 (by norm_num)
  have h2 := h.2 (by rw [show ([[(3 : ℝ), 4]].getD 0 []) = [(3 : ℝ), 4] from rfl,
    l2_norm_three_four]; norm_num)
  refine ⟨h2.2, ?_⟩
  rw [h2.1]
  norm_num [l2_norm_three_four]

/-- C1 counterexample: on the empty input list `embed_documents` raises the
empty-task-set `ValueError` instead of returning the empty list of vectors. -/
theorem embed_documents_empty_counterexample :
    embed_documents (α := ℚ) none (fun _ => Except.ok (FeatResult.oneD [1]))
        ("m") [] = Except.error empty_wait_error ∧
    embed_documents (α := ℚ) none (fun _ => Except.ok (FeatResult.oneD [1]))
        ("m") [] ≠ Except.ok [] :=
  ⟨rfl, fun h => Except.noConfusion h⟩

/-- C1 amended: `_get_text_embeddings` returns, for every input list whose
tokenizer/model run preserves the batch size, one vector per text, the i-th
being the pooled-and-normalized embedding of the i-th row of the model
output for the i-th formatted text; `embed_documents` and `aembed_documents`
do the same for every NON-EMPTY input list whose per-text requests succeed,
the i-th result being the `aembed_query` embedding of the i-th text. -/
theorem batch_embeddings_one_to_one
    (tok_model : List String → ModelOutput ℝ × List (List ℝ))
    (g : String → String) (self : HuggingFaceEmbeddingFields)
    (texts : List String)
    (hT : (tok_model (texts.map (fun t =>
      _format_text g self t))).1.tokenEmbeddings.length = texts.length)
    (hM : (tok_model (texts.map (fun t =>
      _format_text g self t))).2.length = texts.length)
    (pooling : Option (List (List α) → Except PyErr (List α)))
    (feat : String → Except PyErr (FeatResult α)) (mn : String)
    (dtexts : List String) (hne : dtexts ≠ [])
    (hok : ∀ t ∈ dtexts, ∃ v, aembed_query pooling feat mn t = Except.ok v) :
    ((_get_text_embeddings tok_model g self texts).length = texts.length ∧
      ∀ i, i < texts.length →
        (_get_text_embeddings tok_model g self texts).getD i [] =
          embed_single self.pooling self.normalize
            (((tok_model (texts.map (fun t =>
              _format_text g self t))).1.tokenEmbeddings.headD []).headD []).length
            ((tok_model (texts.map (fun t =>
              _format_text g self t))).1.tokenEmbeddings.getD i [])
            ((tok_model (texts.map (fun t =>
              _format_text g self t))).2.getD i [])) ∧
    (∃ res, embed_documents pooling feat mn dtexts = Except.ok res ∧
      aembed_documents pooling feat mn dtexts = Except.ok res ∧
      res.length = dtexts.length ∧
      ∀ i, i < dtexts.length →
        aembed_query pooling feat mn (dtexts.getD i ("")) =
          Except.ok (res.getD i [])) := by
  constructor
  · have hS : _get_text_embeddings tok_model g self texts =
        _embed tok_model self (texts.map (fun t => _format_text g self t)) := rfl
    set S := texts.map (fun t => _format_text g self t) with hSdef
    set T := (tok_model S).1.tokenEmbeddings with hTdef
    set M := (tok_model S).2 with hMdef
    set D := ((T.headD []).headD []).length with hDdef
    set E := if self.pooling = "cls" then _cls_pooling (tok_model S).1
      else _mean_pooling (tok_model S).1 M with hEdef
    have hmean : _mean_pooling (tok_model S).1 M =
        List.zipWith (fun e m => mean_pool_single D e m) T M := by
      simp only [_mean_pooling]
    have hlenE : E.length = texts.length := by
      rw [hEdef]
      by_cases hc : self.pooling = "cls"
      · rw [if_pos hc, _cls_pooling, List.length_map]
        exact hT
      · rw [if_neg hc, hmean, List.length_zipWith, hT, hM, Nat.min_self]
    have hembed : _embed tok_model self S =
        if self.normalize then E.map F_normalize else E := by
      rw [hEdef]
      simp only [_embed]
    have hlen : (_get_text_embeddings tok_model g self texts).length =
        texts.length := by
      rw [hS, hembed]
      by_cases hn : self.normalize
      · rw [if_pos hn, List.length_map]
        exact hlenE
      · rw [if_neg hn]
        exact hlenE
    refine ⟨hlen, ?_⟩
    intro i hi
    have hiE : i < E.length := by
      rw [hlenE]
      exact hi
    have hrowE : E.getD i [] = (if self.pooling = "cls" then (T.getD i []).headD []
        else mean_pool_single D (T.getD i []) (M.getD i [])) := by
      rw [hEdef]
      by_cases hc : self.pooling = "cls"
      · rw [if_pos hc, if_pos hc, _cls_pooling]
        exact getD_map_of_lt (fun seq => seq.headD []) T i [] []
          (by rw [hT]; exact hi)
      · rw [if_neg hc, if_neg hc, hmean]
        exact getD_zipWith_of_lt (fun e m => mean_pool_single D e m) T M i [] [] []
          (by rw [hT]; exact hi) (by rw [hM]; exact hi)
    rw [hS, hembed, embed_single]
    by_cases hn : self.normalize
    · rw [if_pos hn, if_pos hn,
        getD_map_of_lt F_normalize E i [] [] hiE, hrowE]
    · rw [if_neg hn, if_neg hn, hrowE]
  · have hok' : ∀ t ∈ dtexts.map (fun t => aembed_query pooling feat mn t),
        ∃ v, t = Except.ok v := by
      intro t ht
      obtain ⟨s, hs, rfl⟩ := List.mem_map.mp ht
      exact hok s hs
    obtain ⟨res, hres, hlen, hidx⟩ :=
      task_results_ok (dtexts.map (fun t => aembed_query pooling feat mn t)) hok'
    have hie : dtexts.isEmpty = false := by
      rwa [List.isEmpty_eq_false]
    refine ⟨res, ?_, ?_, ?_, ?_⟩
    · simp only [embed_documents, hie, Bool.false_eq_true, if_false]
      exact hres
    · simp only [aembed_documents, hie, Bool.false_eq_true, if_false]
      exact hres
    · rw [hlen, List.length_map]
    · intro i hi
      have h1 := hidx i (by rw [List.length_map]; exact hi)
      rwa [getD_map_of_lt (fun t => aembed_query pooling feat mn t) dtexts i ("")
        (Except.ok []) hi] at h1

/-- C1 witness: a one-sentence local batch gives one output row, and a
two-text hosted batch returns two embeddings in order. -/
theorem batch_embeddings_one_to_one_witness :
    (_get_text_embeddings (fun _ => (ModelOutput.mk [[[2]]], [[1]]))
        (fun _ => ("")) ⟨("m"), ("t"), 5, ("cls"), false, none, none⟩
        [("x")]).length = 1 ∧
    ∃ res, embed_documents (α := ℚ) none
        (fun _ => Except.ok (FeatResult.oneD [7])) ("m") [("a"), ("b")] =
          Except.ok res ∧
      res.length = 2 ∧
      aembed_query (α := ℚ) none (fun _ => Except.ok (FeatResult.oneD [7]))
        ("m") ([("a"), ("b")].getD 0 ("")) = Except.ok (res.getD 0 []) := by
  have h := batch_embeddings_one_to_one
    (fun _ => (ModelOutput.mk [[[2]]], [[1]]))
    (fun _ => ("")) ⟨("m"), ("t"), 5, ("cls"), false, none, none⟩ [("x")]
    rfl rfl (α := ℚ) none (fun _ => Except.ok (FeatResult.oneD [7])) ("m")
    [("a"), ("b")] (by simp) (fun t _ => ⟨[7], rfl⟩)
  obtain ⟨res, h1, _, h3, h4⟩ := h.2
  exact ⟨h.1.1, res, h1, h3, h4 0 (by norm_num)⟩

/-- C6 witness: on the two-element input the request log is exactly the two
texts, and the plain and instrumented results agree. -/
theorem one_request_per_text_witness :
    (embed_documents_instr (α := ℚ) none
        (fun _ => Except.ok (FeatResult.oneD [1])) ("m") [("a"), ("b")]).1 =
      [("a"), ("b")] ∧
    (embed_documents (α := ℚ) none (fun _ => Except.ok (FeatResult.oneD [1]))
        ("m") [("a"), ("b")] =
      task_results ([("a"), ("b")].map (fun t => aembed_query (α := ℚ) none
        (fun _ => Except.ok (FeatResult.oneD [1])) ("m") t))) :=
  ⟨(one_request_per_text (α := ℚ) none
      (fun _ => Except.ok (FeatResult.oneD [1])) ("m") [("a"), ("b")]).1,
    ((one_request_per_text (α := ℚ) none
      (fun _ => Except.ok (FeatResult.oneD [1])) ("m") [("a"), ("b")]).2.2.2.2
      (by simp)).1⟩
